import Mathlib

/-!
Verification of the CurveQuant digitization engine.

Shallow embedding of the two core parts of the repository:

* the oblique-axis pixel/data coordinate transform (`pixelToData`,
  `dataToPixel`, `lineIntersection` and the vector helpers) from the
  geometry module;
* the per-probe curve-detection pipeline (`runDetectionForProbe` of the
  mask-aware application component, which the specification designates as
  the canonical detection variant): brightness profile, derivative signal,
  threshold, per-label mask-derived row-validity, and the tiered
  per-label candidate picker `pickForLabel`;
* the probe manual-override bookkeeping (manual picks, the delete-key
  handler, and the merged table/CSV view).

Modelling conventions:

* JavaScript numbers in positions where the code only performs field
  arithmetic, comparisons, `Math.floor`/`Math.ceil`/`Math.round` are
  modelled as `ℚ` (every IEEE double is rational), keeping the detection
  pipeline fully executable;
* the coordinate transform uses `Math.hypot` (a square root), so its
  embedding works over `ℝ`;
* `pixelToData` guards its results with `isFinite` and replaces
  non-finite values by `0`; over exact reals the computed value is
  non-finite exactly when the corresponding divisor vanishes, which is
  how the guard is rendered here.  `dataToPixel` has no such guard, so it
  is modelled with result type `Option Point`, `none` standing for an
  output with a non-finite coordinate (a zero divisor feeds `Infinity`
  or `NaN` into the result and no later operation of that expression can
  restore finiteness).
-/

namespace CurveQuant

/-! ## Geometry: the coordinate transform module -/

/-- 2D point, `type Point = { x: number; y: number }`. -/
@[ext]
structure Point where
  x : ℝ
  y : ℝ

/-- `CalPixels`: the four calibration pixels, each possibly absent. -/
structure CalPixels where
  x1 : Option Point
  x2 : Option Point
  y1 : Option Point
  y2 : Option Point

/-- `CalValues`: the four calibration values, each possibly absent. -/
structure CalValues where
  x1 : Option ℝ
  x2 : Option ℝ
  y1 : Option ℝ
  y2 : Option ℝ

/-- `dot(a, b)`: dot product. -/
def dot (a b : Point) : ℝ := a.x * b.x + a.y * b.y

/-- `sub(a, b)`: componentwise subtraction. -/
def sub (a b : Point) : Point := ⟨a.x - b.x, a.y - b.y⟩

/-- `add(a, b)`: componentwise addition. -/
def add (a b : Point) : Point := ⟨a.x + b.x, a.y + b.y⟩

/-- `mul(a, s)`: scalar multiple. -/
def mul (a : Point) (s : ℝ) : Point := ⟨a.x * s, a.y * s⟩

/-- `len(a) = Math.hypot(a.x, a.y)`. -/
noncomputable def len (a : Point) : ℝ := Real.sqrt (a.x ^ 2 + a.y ^ 2)

section
open scoped Classical

/-- `norm(a)`: `const l = len(a) || 1; return {x: a.x/l, y: a.y/l}`.
The JavaScript `||` falls back to `1` exactly when `len(a)` is `0`. -/
noncomputable def norm (a : Point) : Point :=
  let l := if len a = 0 then 1 else len a
  ⟨a.x / l, a.y / l⟩

/-- `lineIntersection(p1, p2, p3, p4)`: intersection of the two lines,
`null` (here `none`) when `|det| < 1e-9`. -/
noncomputable def lineIntersection (p1 p2 p3 p4 : Point) : Option Point :=
  let a1 := p2.y - p1.y
  let b1 := p1.x - p2.x
  let c1 := a1 * p1.x + b1 * p1.y
  let a2 := p4.y - p3.y
  let b2 := p3.x - p4.x
  let c2 := a2 * p3.x + b2 * p3.y
  let det := a1 * b2 - a2 * b1
  if |det| < 1e-9 then none
  else some ⟨(b2 * c1 - b1 * c2) / det, (a1 * c2 - a2 * c1) / det⟩

/-- `pixelToData(p, pixels, vals)`.  The two leading guards are the
source's null checks; inside, the `isFinite` clamp on `xData` (resp.
`yData`) fires exactly when the divisor `alpha2 - alpha1` (resp.
`beta2 - beta1`) is zero, and replaces the value with `0`. -/
noncomputable def pixelToData (p : Point) (pixels : CalPixels) (vals : CalValues) : Point :=
  if pixels.x1.isNone || pixels.x2.isNone || pixels.y1.isNone || pixels.y2.isNone then ⟨0, 0⟩
  else if vals.x1.isNone || vals.x2.isNone || vals.y1.isNone || vals.y2.isNone then ⟨0, 0⟩
  else
    let px1 := pixels.x1.getD ⟨0, 0⟩
    let px2 := pixels.x2.getD ⟨0, 0⟩
    let py1 := pixels.y1.getD ⟨0, 0⟩
    let py2 := pixels.y2.getD ⟨0, 0⟩
    let vx1 := vals.x1.getD 0
    let vx2 := vals.x2.getD 0
    let vy1 := vals.y1.getD 0
    let vy2 := vals.y2.getD 0
    let O := (lineIntersection px1 px2 py1 py2).getD px1
    let ux := norm (sub px2 px1)
    let uy := norm (sub py2 py1)
    let alpha1 := dot (sub px1 O) ux
    let alpha2 := dot (sub px2 O) ux
    let beta1 := dot (sub py1 O) uy
    let beta2 := dot (sub py2 O) uy
    let projX := dot (sub p O) ux
    let projY := dot (sub p O) uy
    let xData := if alpha2 - alpha1 = 0 then 0
      else vx1 + (projX - alpha1) / (alpha2 - alpha1) * (vx2 - vx1)
    let yData := if beta2 - beta1 = 0 then 0
      else vy1 + (projY - beta1) / (beta2 - beta1) * (vy2 - vy1)
    ⟨xData, yData⟩

/-- `dataToPixel(data, pixels, vals)`.  No finiteness clamp exists in the
source: when `vals.x2 - vals.x1` or `vals.y2 - vals.y1` is zero the
division produces a non-finite coordinate that propagates into the
returned pixel, modelled as `none`. -/
noncomputable def dataToPixel (data : Point) (pixels : CalPixels) (vals : CalValues) :
    Option Point :=
  if pixels.x1.isNone || pixels.x2.isNone || pixels.y1.isNone || pixels.y2.isNone then
    some ⟨0, 0⟩
  else if vals.x1.isNone || vals.x2.isNone || vals.y1.isNone || vals.y2.isNone then
    some ⟨0, 0⟩
  else
    let px1 := pixels.x1.getD ⟨0, 0⟩
    let px2 := pixels.x2.getD ⟨0, 0⟩
    let py1 := pixels.y1.getD ⟨0, 0⟩
    let py2 := pixels.y2.getD ⟨0, 0⟩
    let vx1 := vals.x1.getD 0
    let vx2 := vals.x2.getD 0
    let vy1 := vals.y1.getD 0
    let vy2 := vals.y2.getD 0
    let O := (lineIntersection px1 px2 py1 py2).getD px1
    let ux := norm (sub px2 px1)
    let uy := norm (sub py2 py1)
    let alpha1 := dot (sub px1 O) ux
    let alpha2 := dot (sub px2 O) ux
    let beta1 := dot (sub py1 O) uy
    let beta2 := dot (sub py2 O) uy
    if vx2 - vx1 = 0 ∨ vy2 - vy1 = 0 then none
    else
      let alpha := alpha1 + (data.x - vx1) / (vx2 - vx1) * (alpha2 - alpha1)
      let beta := beta1 + (data.y - vy1) / (vy2 - vy1) * (beta2 - beta1)
      some (add (add O (mul ux alpha)) (mul uy beta))

end

/-! ## Application state and the detection pipeline

The application stores calibration points as `{pixel, value}` pairs and
probes as `{id, xData, pixelX, automaticY, manual, sensitivity, bandPx}`.
Pixel coordinates and values in this state are plain JavaScript numbers,
modelled as `ℚ`; the data-space outputs of the transform are `ℝ`
(they pass through `pixelToData`). -/

/-- A 2D point of the application state (click positions, calibration
pixels), with exact rational coordinates. -/
structure QPoint where
  x : ℚ
  y : ℚ
deriving DecidableEq

/-- Cast an application-state point into the real-valued geometry. -/
noncomputable def QPoint.toPoint (p : QPoint) : Point := ⟨(p.x : ℝ), (p.y : ℝ)⟩

/-- One calibration entry of the application state: `{ pixel, value }`. -/
structure CalPoint where
  pixel : Option QPoint
  value : Option ℚ

/-- The `CalPixels` record the application passes to the transform:
`{ x1: x1.pixel, x2: x2.pixel, y1: y1.pixel, y2: y2.pixel }`. -/
noncomputable def calPixelsOf (x1 x2 y1 y2 : CalPoint) : CalPixels :=
  ⟨x1.pixel.map QPoint.toPoint, x2.pixel.map QPoint.toPoint,
   y1.pixel.map QPoint.toPoint, y2.pixel.map QPoint.toPoint⟩

/-- The `CalValues` record the application passes to the transform. -/
noncomputable def calValuesOf (x1 x2 y1 y2 : CalPoint) : CalValues :=
  ⟨x1.value.map (fun q => (q : ℝ)), x2.value.map (fun q => (q : ℝ)),
   y1.value.map (fun q => (q : ℝ)), y2.value.map (fun q => (q : ℝ))⟩

/-- `calibrated()`: all four pixels and all four values are present. -/
def calibrated (x1 x2 y1 y2 : CalPoint) : Bool :=
  x1.pixel.isSome && x2.pixel.isSome && y1.pixel.isSome && y2.pixel.isSome &&
  x1.value.isSome && x2.value.isSome && y1.value.isSome && y2.value.isSome

/-- An RGB sample read from the hidden canvas (byte components). -/
structure RGB where
  r : ℕ
  g : ℕ
  b : ℕ

/-- An RGBA sample read from the mask canvas (byte components). -/
structure RGBA where
  r : ℕ
  g : ℕ
  b : ℕ
  a : ℕ

/-- The decoded raster image: dimensions plus RGB pixel access
(`ctx.getImageData` reads). -/
structure Image where
  width : ℕ
  height : ℕ
  pixel : ℤ → ℤ → RGB

/-- A probe: `{ id, xData, pixelX, automaticY, manual, sensitivity, bandPx }`.
`automaticY` slots can be `undefined` (modelled `Option`), `manual` is the
list of `{label, yData}` overrides. -/
structure Probe where
  id : String
  xData : ℚ
  pixelX : ℚ
  automaticY : Option (List (Option ℝ))
  manual : List (String × ℝ)
  sensitivity : Option ℚ := none
  bandPx : Option ℚ := none

/-- Luma of one RGB sample: `0.299*r + 0.587*g + 0.114*b`. -/
def lumaOf (c : RGB) : ℚ := 0.299 * c.r + 0.587 * c.g + 0.114 * c.b

/-- The brightness profile (`runDetectionForProbe`, sampling loop): for
each row `y` of the segment, the luma values of the columns
`px - band .. px + band` that lie inside the image width are accumulated
and the accumulator is divided by `n = band * 2 + 1`. -/
def buildProfile (img : Image) (px : ℤ) (startY : ℤ) (segH : ℕ) (band : ℕ) : List ℚ :=
  (List.range segH).map (fun (y : ℕ) =>
    ((((List.range (2 * band + 1)).map (fun (k : ℕ) => px + (k : ℤ) - (band : ℤ))).filter
        (fun sx => decide (0 ≤ sx ∧ sx < (img.width : ℤ)))).foldl
      (fun acc sx => acc + lumaOf (img.pixel sx (startY + (y : ℤ)))) 0) / (2 * band + 1))

/-- The brightness profile as the specification describes it: the same
accumulation, but each row's accumulator is divided by the number of
columns actually sampled (those of `px - band .. px + band` inside the
image width), so each value is the mean luma of the sampled columns.
This definition follows the claim's words, for comparison with
`buildProfile` (which is translated from the code). -/
def profileMeanSpec (img : Image) (px : ℤ) (startY : ℤ) (segH : ℕ) (band : ℕ) : List ℚ :=
  (List.range segH).map (fun (y : ℕ) =>
    let cols := (((List.range (2 * band + 1)).map
      (fun (k : ℕ) => px + (k : ℤ) - (band : ℤ))).filter
        (fun sx => decide (0 ≤ sx ∧ sx < (img.width : ℤ))))
    (cols.foldl (fun acc sx => acc + lumaOf (img.pixel sx (startY + (y : ℤ)))) 0) /
      cols.length)

/-- The derivative signal: `diff[y] = |profile[y+1] - profile[y]|`,
of length `max 0 (profile.length - 1)`. -/
def diffOf (profile : List ℚ) : List ℚ :=
  (List.range (profile.length - 1)).map
    (fun y => |profile.getD (y + 1) 0 - profile.getD y 0|)

/-- `maxDiff = diff.length ? Math.max(...diff) : 0`. -/
def maxDiffOf (diff : List ℚ) : ℚ :=
  match diff with
  | [] => 0
  | h :: t => t.foldl max h

/-- `threshold = maxDiff * (0.15 + 0.7 * (1 - sensitivity))`. -/
def thresholdOf (diff : List ℚ) (sens : ℚ) : ℚ :=
  maxDiffOf diff * (0.15 + 0.7 * (1 - sens))

/-! ### Mask-derived per-label row validity -/

/-- A mask pixel owns a label when its alpha is non-zero and each colour
channel is within `TOL = 40` of the label's colour. -/
def maskMatches (c : RGBA) (t : RGB) : Prop :=
  c.a ≠ 0 ∧ |(c.r : ℤ) - (t.r : ℤ)| ≤ 40 ∧ |(c.g : ℤ) - (t.g : ℤ)| ≤ 40 ∧
    |(c.b : ℤ) - (t.b : ℤ)| ≤ 40

instance (c : RGBA) (t : RGB) : Decidable (maskMatches c t) := by
  unfold maskMatches; infer_instance

/-- One row of a scan: is there a matching mask pixel in columns
`left .. right` of image row `startY + row`? -/
def rowValid (mask : ℤ → ℤ → RGBA) (t : RGB) (startY : ℤ) (left right : ℤ)
    (row : ℕ) : Bool :=
  (List.range (right - left + 1).toNat).any
    (fun (k : ℕ) => decide (maskMatches (mask (left + (k : ℤ)) (startY + (row : ℤ))) t))

/-- The row-validity mask for one label (`labelValidRows[lab]`): scan the
narrow band `px - band .. px + band` first; if it has no hit (or has zero
width), scan the full image width; if that also has no hit, or the mask
layer is disabled or unreadable, the label is unconstrained (`none`). -/
def labelValidRowsFor (highlightEnabled : Bool) (mask : Option (ℤ → ℤ → RGBA))
    (w : ℕ) (px : ℤ) (band : ℕ) (startY : ℤ) (segH : ℕ) (t : RGB) :
    Option (List Bool) :=
  if highlightEnabled then
    match mask with
    | none => none
    | some m =>
      let left := max 0 (px - (band : ℤ))
      let right := min ((w : ℤ) - 1) (px + (band : ℤ))
      let narrow := (List.range segH).map (rowValid m t startY left right)
      if 0 < right - left + 1 ∧ narrow.any id then some narrow
      else
        let full := (List.range segH).map (rowValid m t startY 0 ((w : ℤ) - 1))
        if full.any id then some full else none
  else none

/-! ### The per-label candidate picker -/

/-- `MIN_VERTICAL_SEPARATION`. -/
def MIN_SEP : ℤ := 3

/-- `picks.some((s) => Math.abs(s - y) < MIN_SEP)`. -/
def tooClose (picks : List ℕ) (y : ℕ) : Bool :=
  picks.any (fun s => decide (|(s : ℤ) - (y : ℤ)| < MIN_SEP))

/-- `!valid || valid[y]` (an out-of-range read is `undefined`, falsy). -/
def validOK (valid : Option (List Bool)) (y : ℕ) : Bool :=
  match valid with
  | none => true
  | some v => v.getD y false

/-- `diff[y] > diff[y-1] && diff[y] > diff[y+1]` (strict local maximum). -/
def isLocalMax (diff : List ℚ) (y : ℕ) : Prop :=
  diff.getD (y - 1) 0 < diff.getD y 0 ∧ diff.getD (y + 1) 0 < diff.getD y 0

instance (diff : List ℚ) (y : ℕ) : Decidable (isLocalMax diff y) := by
  unfold isLocalMax; infer_instance

/-- Stable insertion into a list sorted by decreasing key (equal keys keep
their relative order, as JavaScript's stable `Array.sort`). -/
def insertDesc (key : ℕ → ℚ) (y : ℕ) : List ℕ → List ℕ
  | [] => [y]
  | z :: zs => if key y ≤ key z then z :: insertDesc key y zs else y :: z :: zs

/-- Stable sort by decreasing key, modelling
`candidates.sort((a, b) => diff[b] - diff[a])`. -/
def sortDesc (key : ℕ → ℚ) (l : List ℕ) : List ℕ :=
  l.foldl (fun acc y => insertDesc key y acc) []

/-- First minimiser of the distance to `target` over `cands`, scanning in
order with a strict improvement test (`d < bestDist`), as the source's
`for` loops of tiers 4 and 5. -/
def firstMinBy (target : ℤ) (cands : List ℕ) : Option ℕ :=
  cands.foldl (fun best y =>
    match best with
    | none => some y
    | some b => if |(y : ℤ) - target| < |(b : ℤ) - target| then some y else some b) none

/-- The indices `1 .. diff.length - 2` the candidate loops range over. -/
def interiorIdxs (diff : List ℚ) : List ℕ :=
  (List.range diff.length).filter (fun y => decide (1 ≤ y ∧ y + 1 < diff.length))

/-- Tier 1 of `pickForLabel`: local maxima of `diff` at or above the
threshold, filtered by mask validity, strongest first, first one not too
close to an already-chosen row. -/
def tier1 (diff : List ℚ) (valid : Option (List Bool)) (threshold : ℚ)
    (picks : List ℕ) : Option ℕ :=
  (sortDesc (fun y => diff.getD y 0) ((interiorIdxs diff).filter (fun y =>
    decide (isLocalMax diff y) && decide (threshold ≤ diff.getD y 0) && validOK valid y))).find?
    (fun c => !tooClose picks c)

/-- Tier 2: any local maximum regardless of the threshold. -/
def tier2 (diff : List ℚ) (valid : Option (List Bool)) (picks : List ℕ) : Option ℕ :=
  (sortDesc (fun y => diff.getD y 0) ((interiorIdxs diff).filter (fun y =>
    decide (isLocalMax diff y) && validOK valid y))).find? (fun c => !tooClose picks c)

/-- Tier 3: all interior rows, strongest `diff` first. -/
def tier3 (diff : List ℚ) (valid : Option (List Bool)) (picks : List ℕ) : Option ℕ :=
  (sortDesc (fun y => diff.getD y 0) (interiorIdxs diff)).find?
    (fun i => validOK valid i && !tooClose picks i)

/-- Tier 4 (only when the label has mask coverage): the valid row closest
to the evenly spaced target respecting separation; when every valid row
is too close to an earlier pick, any valid row. -/
def tier4 (segH : ℕ) (target : ℤ) (valid : Option (List Bool))
    (picks : List ℕ) : Option ℕ :=
  match valid with
  | some v =>
    if v.any id then
      match firstMinBy target
          ((List.range segH).filter (fun y => v.getD y false && !tooClose picks y)) with
      | some c => some c
      | none => (List.range segH).find? (fun y => v.getD y false)
    else none
  | none => none

/-- Tier 5: the row closest to the evenly spaced target respecting
separation, ignoring the mask. -/
def tier5 (segH : ℕ) (target : ℤ) (picks : List ℕ) : Option ℕ :=
  firstMinBy target ((List.range segH).filter (fun y => !tooClose picks y))

/-- `pickForLabel(labelIdx)`: the tiered per-label row selection of the
mask-aware `runDetectionForProbe`; the source's early `return`s become an
`Option.orElse` chain, and the final fallbacks
(`for (y …) return y; return Math.floor(segH/2)`) yield row `0` for a
non-empty segment and `segH / 2` otherwise. -/
def pickForLabel (diff : List ℚ) (segH : ℕ) (labelCount : ℕ)
    (valid : Option (List Bool)) (threshold : ℚ) (picks : List ℕ)
    (labelIdx : ℕ) : ℕ :=
  let target : ℤ := round (((labelIdx : ℚ) + 0.5) * (segH : ℚ) / (labelCount : ℚ))
  (((((tier1 diff valid threshold picks).orElse
      (fun _ => tier2 diff valid picks)).orElse
      (fun _ => tier3 diff valid picks)).orElse
      (fun _ => tier4 segH target valid picks)).orElse
      (fun _ => tier5 segH target picks)).getD
    (if 0 < segH then 0 else segH / 2)

/-- The selection loop: `for (i…) picks.push(pickForLabel(i))`.
`validFor i` is `labelValidRows[labels[i]]`. -/
def runPicks (diff : List ℚ) (segH : ℕ) (labelCount : ℕ)
    (validFor : ℕ → Option (List Bool)) (threshold : ℚ) : ℕ → List ℕ
  | 0 => []
  | n + 1 =>
    let prev := runPicks diff segH labelCount validFor threshold n
    prev ++ [pickForLabel diff segH labelCount (validFor n) threshold prev n]

/-! ### The full detection run -/

/-- The read-only inputs `runDetectionForProbe` closes over: label list,
per-label mask colours (`hexToRgb(labelColors[lab] ?? "#ffff00")` computed
upstream), global sensitivity and band, the highlight flag, and the mask
canvas raster (`none` when absent or unreadable). -/
structure DetectSettings where
  labels : List String
  labelRgb : String → RGB
  sensitivity : ℚ
  bandPx : ℚ
  highlightEnabled : Bool
  mask : Option (ℤ → ℤ → RGBA)

/-- `startY = Math.max(0, Math.floor(Math.min(y1.pixel.y, y2.pixel.y)))`. -/
def startYOf (q1 q2 : QPoint) : ℤ := max 0 ⌊min q1.y q2.y⌋

/-- `endY = Math.min(h - 1, Math.ceil(Math.max(y1.pixel.y, y2.pixel.y)))`. -/
def endYOf (h : ℕ) (q1 q2 : QPoint) : ℤ := min ((h : ℤ) - 1) ⌈max q1.y q2.y⌉

/-- `runDetectionForProbe`, up to (and including) the choice of the
segment-space rows: early-outs when the image is missing, the state is
uncalibrated, or `segH <= 0`; otherwise the profile, derivative,
threshold, per-label mask constraints and per-label picks.  Returns
`(startY, segH, picks)`. -/
def detectPicks (img? : Option Image) (x1 x2 y1 y2 : CalPoint) (s : DetectSettings)
    (probe : Probe) : Option (ℤ × ℕ × List ℕ) :=
  match img? with
  | none => none
  | some img =>
    if calibrated x1 x2 y1 y2 then
      let q1 := y1.pixel.getD ⟨0, 0⟩
      let q2 := y2.pixel.getD ⟨0, 0⟩
      let px : ℤ := round probe.pixelX
      let band : ℕ := (max 0 (round (probe.bandPx.getD s.bandPx))).toNat
      let startY := startYOf q1 q2
      let endY := endYOf img.height q1 q2
      let segH : ℕ := (endY - startY + 1).toNat
      if 0 < segH then
        let profile := buildProfile img px startY segH band
        let diff := diffOf profile
        let threshold := thresholdOf diff (probe.sensitivity.getD s.sensitivity)
        let validFor := fun i => labelValidRowsFor s.highlightEnabled s.mask
          img.width px band startY segH (s.labelRgb (s.labels.getD i ""))
        some (startY, segH, runPicks diff segH s.labels.length validFor threshold
          s.labels.length)
      else none
    else none

/-- The complete detection run: the chosen rows are mapped back through
`pixelToData({x: px, y: startY + segY})` to data-space y values; this is
the array written to the probe's `automaticY` (and to
`detectionResults[probe.id]`).  `none` means no result is written. -/
noncomputable def detectProbe (img? : Option Image) (x1 x2 y1 y2 : CalPoint)
    (s : DetectSettings) (probe : Probe) : Option (List ℝ) :=
  (detectPicks img? x1 x2 y1 y2 s probe).map (fun r =>
    r.2.2.map (fun (segY : ℕ) =>
      (pixelToData ⟨((round probe.pixelX : ℤ) : ℝ), ((r.1 + (segY : ℤ) : ℤ) : ℝ)⟩
        (calPixelsOf x1 x2 y1 y2) (calValuesOf x1 x2 y1 y2)).y))

/-! ### Manual overrides and the merged view -/

/-- The manual-pick handler (`onStageClick`, manual mode): replace any
existing manual entry for the active label, and blank
`automaticY[labels.indexOf(label)]` when `automaticY` exists and the index
is in range; every other slot is kept. -/
def setManualPick (labels : List String) (lab : String) (yData : ℝ) (p : Probe) :
    Probe :=
  { p with
    manual := p.manual.filter (fun m => m.1 ≠ lab) ++ [(lab, yData)],
    automaticY :=
      match p.automaticY, labels.findIdx? (fun l => l = lab) with
      | some arr, some idx => if idx < arr.length then some (arr.set idx none) else some arr
      | arr, _ => arr }

/-- The delete-key handler for an active probe/label: if a manual override
exists for the label it is removed (the automatic array is untouched);
otherwise, the automatic slot for the label is blanked when defined. -/
def deleteLabelValue (labels : List String) (lab : String) (p : Probe) : Probe :=
  if p.manual.any (fun m => m.1 = lab) then
    { p with manual := p.manual.filter (fun m => m.1 ≠ lab) }
  else
    match p.automaticY, labels.findIdx? (fun l => l = lab) with
    | some arr, some idx =>
      if idx < arr.length ∧ (arr.getD idx none).isSome then
        { p with automaticY := some (arr.set idx none) }
      else p
    | _, _ => p

/-- The merged table/CSV cell for label index `idx` (label `lab`): a
manual entry wins; otherwise the defined automatic slot; otherwise blank. -/
def mergedValue (p : Probe) (lab : String) (idx : ℕ) : Option ℝ :=
  match p.manual.find? (fun m => m.1 = lab) with
  | some m => some m.2
  | none =>
    match p.automaticY with
    | some arr => arr.getD idx none
    | none => none

/-! ## Helper lemmas about the picker's list combinators -/

theorem mem_insertDesc (key : ℕ → ℚ) (y x : ℕ) :
    ∀ l : List ℕ, x ∈ insertDesc key y l ↔ x = y ∨ x ∈ l := by
  intro l
  induction l with
  | nil => simp [insertDesc]
  | cons z zs ih =>
    simp only [insertDesc]
    split
    all_goals simp only [List.mem_cons, ih]
    all_goals tauto

theorem mem_sortDesc (key : ℕ → ℚ) (l : List ℕ) (x : ℕ) :
    x ∈ sortDesc key l ↔ x ∈ l := by
  have main : ∀ (l acc : List ℕ),
      x ∈ l.foldl (fun acc y => insertDesc key y acc) acc ↔ x ∈ acc ∨ x ∈ l := by
    intro l
    induction l with
    | nil => simp
    | cons z zs ih =>
      intro acc
      simp only [List.foldl_cons, ih, mem_insertDesc, List.mem_cons]
      tauto
  simpa [sortDesc] using main l []

theorem firstMinBy_mem (target : ℤ) (cands : List ℕ) (r : ℕ)
    (h : firstMinBy target cands = some r) : r ∈ cands := by
  have main : ∀ (cands : List ℕ) (acc : Option ℕ),
      cands.foldl (fun best y =>
        match best with
        | none => some y
        | some b => if |(y : ℤ) - target| < |(b : ℤ) - target| then some y else some b)
        acc = some r → r ∈ cands ∨ acc = some r := by
    intro cands
    induction cands with
    | nil => intro acc h; exact Or.inr h
    | cons z zs ih =>
      intro acc h
      rcases ih _ h with h1 | h1
      · exact Or.inl (List.mem_cons_of_mem _ h1)
      · match acc with
        | none =>
          simp only [Option.some.injEq] at h1
          exact Or.inl (h1 ▸ List.mem_cons_self _ _)
        | some b =>
          by_cases hlt : |(z : ℤ) - target| < |(b : ℤ) - target| <;>
            simp [hlt] at h1 <;> [exact Or.inl (h1 ▸ List.mem_cons_self _ _);
              exact Or.inr (congrArg some h1)]
  rcases main cands none h with h1 | h1
  · exact h1
  · exact absurd h1 (by simp)

theorem firstMinBy_none (target : ℤ) (cands : List ℕ)
    (h : firstMinBy target cands = none) : cands = [] := by
  have main : ∀ (cands : List ℕ) (acc : Option ℕ), acc.isSome →
      (cands.foldl (fun best y =>
        match best with
        | none => some y
        | some b => if |(y : ℤ) - target| < |(b : ℤ) - target| then some y else some b)
        acc).isSome := by
    intro cands
    induction cands with
    | nil => intro acc h; exact h
    | cons z zs ih =>
      intro acc hacc
      match acc with
      | none => simp at hacc
      | some b =>
        simp only [List.foldl_cons]
        split <;> exact ih _ rfl
  match cands with
  | [] => rfl
  | z :: zs =>
    exfalso
    have := main zs (some z) rfl
    simp only [firstMinBy, List.foldl_cons] at h
    rw [h] at this
    simp at this

theorem mem_interiorIdxs (diff : List ℚ) (x : ℕ) (h : x ∈ interiorIdxs diff) :
    1 ≤ x ∧ x + 1 < diff.length := by
  simp only [interiorIdxs, List.mem_filter, List.mem_range, decide_eq_true_eq] at h
  exact h.2

theorem tooClose_false_iff (picks : List ℕ) (y : ℕ) :
    tooClose picks y = false ↔ ∀ s ∈ picks, MIN_SEP ≤ |(s : ℤ) - (y : ℤ)| := by
  simp only [tooClose, List.any_eq_false, decide_eq_true_eq]
  constructor
  · intro h s hs; exact le_of_not_lt (by simpa using h s hs)
  · intro h s hs; simpa using not_lt.mpr (h s hs)

/-! ## Lemmas about `pickForLabel` -/

theorem tier1_some (diff : List ℚ) (valid : Option (List Bool)) (threshold : ℚ)
    (picks : List ℕ) (c : ℕ) (h : tier1 diff valid threshold picks = some c) :
    c + 1 < diff.length ∧ tooClose picks c = false := by
  have hmem := List.mem_of_find?_eq_some h
  have hp := List.find?_some h
  rw [mem_sortDesc] at hmem
  refine ⟨(mem_interiorIdxs diff c (List.mem_of_mem_filter hmem)).2, ?_⟩
  simpa using hp

theorem tier2_some (diff : List ℚ) (valid : Option (List Bool))
    (picks : List ℕ) (c : ℕ) (h : tier2 diff valid picks = some c) :
    c + 1 < diff.length ∧ tooClose picks c = false := by
  have hmem := List.mem_of_find?_eq_some h
  have hp := List.find?_some h
  rw [mem_sortDesc] at hmem
  refine ⟨(mem_interiorIdxs diff c (List.mem_of_mem_filter hmem)).2, ?_⟩
  simpa using hp

theorem tier3_some (diff : List ℚ) (valid : Option (List Bool))
    (picks : List ℕ) (c : ℕ) (h : tier3 diff valid picks = some c) :
    c + 1 < diff.length ∧ tooClose picks c = false := by
  have hmem := List.mem_of_find?_eq_some h
  have hp := List.find?_some h
  rw [mem_sortDesc] at hmem
  refine ⟨(mem_interiorIdxs diff c hmem).2, ?_⟩
  simp only [Bool.and_eq_true, Bool.not_eq_true'] at hp
  exact hp.2

theorem tier4_some (segH : ℕ) (target : ℤ) (valid : Option (List Bool))
    (picks : List ℕ) (c : ℕ) (h : tier4 segH target valid picks = some c) :
    c < segH ∧ (tooClose picks c = false ∨
      ∃ v, valid = some v ∧ v.any id = true ∧
        ∀ y < segH, v.getD y false = true → tooClose picks y = true) := by
  match valid with
  | none => exact absurd h (by simp [tier4])
  | some v =>
    simp only [tier4] at h
    by_cases hv : v.any id
    · rw [if_pos hv] at h
      rcases hmin : firstMinBy target
          ((List.range segH).filter (fun y => v.getD y false && !tooClose picks y)) with
        _ | c2
      · rw [hmin] at h
        have hmem := List.mem_of_find?_eq_some h
        rw [List.mem_range] at hmem
        have hempty := firstMinBy_none _ _ hmin
        refine ⟨hmem, Or.inr ⟨v, rfl, hv, ?_⟩⟩
        intro y hy hval
        by_contra hcl
        have hyin : y ∈ (List.range segH).filter
            (fun y => v.getD y false && !tooClose picks y) := by
          rw [List.mem_filter, List.mem_range]
          refine ⟨hy, ?_⟩
          show (v.getD y false && !tooClose picks y) = true
          rw [Bool.and_eq_true, Bool.not_eq_true']
          exact ⟨hval, by simpa using hcl⟩
        rw [hempty] at hyin
        simp at hyin
      · rw [hmin] at h
        simp only [Option.some.injEq] at h
        subst h
        have hmem := firstMinBy_mem _ _ _ hmin
        rw [List.mem_filter, List.mem_range] at hmem
        refine ⟨hmem.1, Or.inl ?_⟩
        have := hmem.2
        simp only [Bool.and_eq_true, Bool.not_eq_true'] at this
        exact this.2
    · rw [if_neg hv] at h
      exact absurd h (by simp)

theorem tier5_some (segH : ℕ) (target : ℤ) (picks : List ℕ) (c : ℕ)
    (h : tier5 segH target picks = some c) :
    c < segH ∧ tooClose picks c = false := by
  have hmem := firstMinBy_mem _ _ _ h
  rw [List.mem_filter, List.mem_range] at hmem
  refine ⟨hmem.1, ?_⟩
  have := hmem.2
  simpa using this

theorem tier5_none (segH : ℕ) (target : ℤ) (picks : List ℕ)
    (h : tier5 segH target picks = none) :
    ∀ y < segH, tooClose picks y = true := by
  have hempty := firstMinBy_none _ _ h
  intro y hy
  by_contra hcl
  have hyin : y ∈ (List.range segH).filter (fun y => !tooClose picks y) := by
    rw [List.mem_filter, List.mem_range]
    refine ⟨hy, ?_⟩
    show (!tooClose picks y) = true
    rw [Bool.not_eq_true']
    simpa using hcl
  rw [hempty] at hyin
  simp at hyin

/-- Every row returned by `pickForLabel` is a valid segment-space index:
it lies in `[0, segH - 1]` (given the structural relation
`diff.length + 1 = segH` of the pipeline and a non-empty segment). -/
theorem pickForLabel_lt (diff : List ℚ) (segH labelCount : ℕ)
    (valid : Option (List Bool)) (threshold : ℚ) (picks : List ℕ) (labelIdx : ℕ)
    (hseg : 0 < segH) (hdiff : diff.length + 1 = segH) :
    pickForLabel diff segH labelCount valid threshold picks labelIdx < segH := by
  unfold pickForLabel
  set target : ℤ := round (((labelIdx : ℚ) + 0.5) * (segH : ℚ) / (labelCount : ℚ)) with htarget
  rcases h1 : tier1 diff valid threshold picks with _ | c
  case some => simp only [h1, Option.orElse, Option.getD]; have := tier1_some _ _ _ _ _ h1; omega
  rcases h2 : tier2 diff valid picks with _ | c
  case some => simp only [h1, h2, Option.orElse, Option.getD]; have := tier2_some _ _ _ _ h2; omega
  rcases h3 : tier3 diff valid picks with _ | c
  case some => simp only [h1, h2, h3, Option.orElse, Option.getD]; have := tier3_some _ _ _ _ h3; omega
  rcases h4 : tier4 segH target valid picks with _ | c
  case some =>
    simp only [h1, h2, h3, h4, Option.orElse, Option.getD]
    have := tier4_some _ _ _ _ _ h4
    omega
  rcases h5 : tier5 segH target picks with _ | c
  case some =>
    simp only [h1, h2, h3, h4, h5, Option.orElse, Option.getD]
    have := tier5_some _ _ _ _ h5
    omega
  simp only [h1, h2, h3, h4, h5, Option.orElse, Option.getD, if_pos hseg]
  exact hseg

/-- Separation property of one `pickForLabel` call: the returned row is at
least `MIN_SEP` away from every already-chosen row, unless the pick was
forced — either the label's mask-valid rows all lie too close to earlier
picks (the tier-4 "return any valid row" fallback), or no row of the
segment is far enough from the earlier picks (the tier-6 fallback). -/
theorem pickForLabel_sep (diff : List ℚ) (segH labelCount : ℕ)
    (valid : Option (List Bool)) (threshold : ℚ) (picks : List ℕ) (labelIdx : ℕ) :
    tooClose picks (pickForLabel diff segH labelCount valid threshold picks labelIdx) = false ∨
    (∃ v, valid = some v ∧ v.any id = true ∧
      ∀ y < segH, v.getD y false = true → tooClose picks y = true) ∨
    (∀ y < segH, tooClose picks y = true) := by
  unfold pickForLabel
  set target : ℤ := round (((labelIdx : ℚ) + 0.5) * (segH : ℚ) / (labelCount : ℚ)) with htarget
  rcases h1 : tier1 diff valid threshold picks with _ | c
  case some =>
    simp only [h1, Option.orElse, Option.getD]
    exact Or.inl (tier1_some _ _ _ _ _ h1).2
  rcases h2 : tier2 diff valid picks with _ | c
  case some =>
    simp only [h1, h2, Option.orElse, Option.getD]
    exact Or.inl (tier2_some _ _ _ _ h2).2
  rcases h3 : tier3 diff valid picks with _ | c
  case some =>
    simp only [h1, h2, h3, Option.orElse, Option.getD]
    exact Or.inl (tier3_some _ _ _ _ h3).2
  rcases h4 : tier4 segH target valid picks with _ | c
  case some =>
    simp only [h1, h2, h3, h4, Option.orElse, Option.getD]
    rcases (tier4_some _ _ _ _ _ h4).2 with h | h
    · exact Or.inl h
    · exact Or.inr (Or.inl h)
  rcases h5 : tier5 segH target picks with _ | c
  case some =>
    simp only [h1, h2, h3, h4, h5, Option.orElse, Option.getD]
    exact Or.inl (tier5_some _ _ _ _ h5).2
  exact Or.inr (Or.inr (tier5_none _ _ _ h5))

/-! ## Lemmas about `runPicks` -/

theorem runPicks_length (diff : List ℚ) (segH labelCount : ℕ)
    (validFor : ℕ → Option (List Bool)) (threshold : ℚ) (n : ℕ) :
    (runPicks diff segH labelCount validFor threshold n).length = n := by
  induction n with
  | zero => rfl
  | succ n ih => simp [runPicks, ih]

theorem runPicks_succ (diff : List ℚ) (segH labelCount : ℕ)
    (validFor : ℕ → Option (List Bool)) (threshold : ℚ) (n : ℕ) :
    runPicks diff segH labelCount validFor threshold (n + 1) =
      runPicks diff segH labelCount validFor threshold n ++
        [pickForLabel diff segH labelCount (validFor n) threshold
          (runPicks diff segH labelCount validFor threshold n) n] := rfl

theorem runPicks_getD (diff : List ℚ) (segH labelCount : ℕ)
    (validFor : ℕ → Option (List Bool)) (threshold : ℚ) (n j : ℕ) (hj : j < n) :
    (runPicks diff segH labelCount validFor threshold n).getD j 0 =
      pickForLabel diff segH labelCount (validFor j) threshold
        (runPicks diff segH labelCount validFor threshold j) j := by
  induction n with
  | zero => omega
  | succ n ih =>
    rw [runPicks_succ]
    rcases Nat.lt_or_ge j n with h | h
    · rw [List.getD_append _ _ _ _ (by rw [runPicks_length]; exact h)]
      exact ih h
    · have hjn : j = n := by omega
      subst hjn
      rw [List.getD_eq_getElem?_getD, List.getElem?_append_right
        (by rw [runPicks_length])]
      simp [runPicks_length]

theorem runPicks_getD_mem (diff : List ℚ) (segH labelCount : ℕ)
    (validFor : ℕ → Option (List Bool)) (threshold : ℚ) (n i j : ℕ)
    (hij : i < j) (hj : j ≤ n) :
    (runPicks diff segH labelCount validFor threshold n).getD i 0 ∈
      runPicks diff segH labelCount validFor threshold j := by
  rw [runPicks_getD _ _ _ _ _ n i (by omega),
    ← runPicks_getD _ _ _ _ _ j i hij]
  have hlen : i < (runPicks diff segH labelCount validFor threshold j).length := by
    rw [runPicks_length]; exact hij
  rw [List.getD_eq_getElem _ _ hlen]
  exact List.getElem_mem hlen

theorem runPicks_take (diff : List ℚ) (segH labelCount : ℕ)
    (validFor : ℕ → Option (List Bool)) (threshold : ℚ) (n j : ℕ) (hj : j ≤ n) :
    (runPicks diff segH labelCount validFor threshold n).take j =
      runPicks diff segH labelCount validFor threshold j := by
  induction n with
  | zero =>
    have : j = 0 := by omega
    subst this; rfl
  | succ n ih =>
    rcases Nat.lt_or_ge n j with h | h
    · have : j = n + 1 := by omega
      subst this
      exact List.take_of_length_le (by rw [runPicks_length])
    · rw [runPicks_succ, List.take_append_of_le_length (by rw [runPicks_length]; exact h)]
      exact ih h

theorem runPicks_mem (diff : List ℚ) (segH labelCount : ℕ)
    (validFor : ℕ → Option (List Bool)) (threshold : ℚ) (n : ℕ) (x : ℕ)
    (hx : x ∈ runPicks diff segH labelCount validFor threshold n) :
    ∃ j < n, x = pickForLabel diff segH labelCount (validFor j) threshold
      (runPicks diff segH labelCount validFor threshold j) j := by
  induction n with
  | zero => simp [runPicks] at hx
  | succ n ih =>
    rw [runPicks_succ, List.mem_append] at hx
    rcases hx with hx | hx
    · obtain ⟨j, hj, hje⟩ := ih hx
      exact ⟨j, by omega, hje⟩
    · simp only [List.mem_singleton] at hx
      exact ⟨n, by omega, hx⟩

/-! ## Lemmas about the profile pipeline -/

theorem buildProfile_length (img : Image) (px startY : ℤ) (segH band : ℕ) :
    (buildProfile img px startY segH band).length = segH := by
  rw [buildProfile, List.length_map, List.length_range]

theorem diffOf_length (profile : List ℚ) :
    (diffOf profile).length = profile.length - 1 := by
  simp [diffOf]

/-- Inversion of a successful `detectPicks` run: the image was present,
the state calibrated, the segment non-empty, and the output rows are the
`runPicks` selection over the profile's derivative. -/
theorem detectPicks_inv (img? : Option Image) (x1 x2 y1 y2 : CalPoint)
    (s : DetectSettings) (probe : Probe) (startY : ℤ) (segH : ℕ) (picks : List ℕ)
    (h : detectPicks img? x1 x2 y1 y2 s probe = some (startY, segH, picks)) :
    ∃ img, img? = some img ∧ calibrated x1 x2 y1 y2 = true ∧ 0 < segH ∧
      startY = startYOf (y1.pixel.getD ⟨0, 0⟩) (y2.pixel.getD ⟨0, 0⟩) ∧
      segH = (endYOf img.height (y1.pixel.getD ⟨0, 0⟩) (y2.pixel.getD ⟨0, 0⟩) -
        startY + 1).toNat ∧
      picks = runPicks
        (diffOf (buildProfile img (round probe.pixelX) startY segH
          (max 0 (round (probe.bandPx.getD s.bandPx))).toNat))
        segH s.labels.length
        (fun i => labelValidRowsFor s.highlightEnabled s.mask img.width
          (round probe.pixelX) (max 0 (round (probe.bandPx.getD s.bandPx))).toNat
          startY segH (s.labelRgb (s.labels.getD i "")))
        (thresholdOf
          (diffOf (buildProfile img (round probe.pixelX) startY segH
            (max 0 (round (probe.bandPx.getD s.bandPx))).toNat))
          (probe.sensitivity.getD s.sensitivity))
        s.labels.length := by
  match img? with
  | none => exact absurd h (by simp [detectPicks])
  | some img =>
    refine ⟨img, rfl, ?_⟩
    simp only [detectPicks] at h
    by_cases hc : calibrated x1 x2 y1 y2
    · rw [if_pos hc] at h
      by_cases hs : 0 < (endYOf img.height (y1.pixel.getD ⟨0, 0⟩) (y2.pixel.getD ⟨0, 0⟩) -
          startYOf (y1.pixel.getD ⟨0, 0⟩) (y2.pixel.getD ⟨0, 0⟩) + 1).toNat
      · rw [if_pos hs] at h
        simp only [Option.some.injEq, Prod.mk.injEq] at h
        obtain ⟨h1, h2, h3⟩ := h
        subst h1; subst h2
        exact ⟨hc, hs, rfl, rfl, h3.symm⟩
      · rw [if_neg hs] at h
        exact absurd h (by simp)
    · rw [if_neg hc] at h
      exact absurd h (by simp)

/-! ## Claim theorems for the picker -/

/-- **C10.** For every detection run with a non-empty segment, every
segment-space row chosen by the per-label picker lies within
`[0, segH - 1]`, so the sampled pixel row `startY + row` lies inside the
clamped span `[startY, endY]` and hence inside the image bounds. -/
theorem detect_rows_within_segment (img? : Option Image) (x1 x2 y1 y2 : CalPoint)
    (s : DetectSettings) (probe : Probe) (img : Image) (startY : ℤ) (segH : ℕ)
    (picks : List ℕ) (himg : img? = some img)
    (h : detectPicks img? x1 x2 y1 y2 s probe = some (startY, segH, picks)) :
    ∀ p ∈ picks, p < segH ∧ 0 ≤ startY ∧
      startY + (p : ℤ) ≤ endYOf img.height (y1.pixel.getD ⟨0, 0⟩) (y2.pixel.getD ⟨0, 0⟩) ∧
      startY + (p : ℤ) < img.height := by
  obtain ⟨img2, himg2, hc, hseg, hsY, hsegH, hpicks⟩ :=
    detectPicks_inv _ _ _ _ _ _ _ _ _ _ h
  rw [himg] at himg2
  injection himg2 with he
  subst he
  intro p hp
  rw [hpicks] at hp
  obtain ⟨j, hj, hpe⟩ := runPicks_mem _ _ _ _ _ _ _ hp
  have hdiff : (diffOf (buildProfile img (round probe.pixelX) startY segH
      (max 0 (round (probe.bandPx.getD s.bandPx))).toNat)).length + 1 = segH := by
    rw [diffOf_length, buildProfile_length]
    omega
  have hlt : p < segH := by
    rw [hpe]
    exact pickForLabel_lt _ _ _ _ _ _ _ hseg hdiff
  have hstart : 0 ≤ startY := by
    rw [hsY]
    exact le_max_left _ _
  have hend : endYOf img.height (y1.pixel.getD ⟨0, 0⟩) (y2.pixel.getD ⟨0, 0⟩) <
      (img.height : ℤ) := by
    have := min_le_left ((img.height : ℤ) - 1)
      (⌈max (y1.pixel.getD ⟨0, 0⟩).y (y2.pixel.getD ⟨0, 0⟩).y⌉)
    rw [endYOf]
    omega
  refine ⟨hlt, hstart, by omega, by omega⟩

/-- **C3 (amended).** Within one detection run, any two chosen
segment-space rows are at least `MIN_SEP = 3` rows apart, unless the later
pick was forced: either its label's mask-valid rows all lie within the
separation distance of earlier picks (tier-4 "any valid row" fallback), or
no row of the segment is separated from all earlier picks (tier-6
fallback, which includes the case of a segment too small for
`labels × separation`). -/
theorem detect_min_separation (img? : Option Image) (x1 x2 y1 y2 : CalPoint)
    (s : DetectSettings) (probe : Probe) (img : Image) (startY : ℤ) (segH : ℕ)
    (picks : List ℕ) (himg : img? = some img)
    (h : detectPicks img? x1 x2 y1 y2 s probe = some (startY, segH, picks))
    (i j : ℕ) (hij : i < j) (hj : j < picks.length) :
    MIN_SEP ≤ |(picks.getD i 0 : ℤ) - (picks.getD j 0 : ℤ)| ∨
    (∃ v, labelValidRowsFor s.highlightEnabled s.mask img.width (round probe.pixelX)
        (max 0 (round (probe.bandPx.getD s.bandPx))).toNat startY segH
        (s.labelRgb (s.labels.getD j "")) = some v ∧ v.any id = true ∧
      ∀ y < segH, v.getD y false = true → tooClose (picks.take j) y = true) ∨
    (∀ y < segH, tooClose (picks.take j) y = true) := by
  obtain ⟨img2, himg2, hc, hseg, hsY, hsegH, hpicks⟩ :=
    detectPicks_inv _ _ _ _ _ _ _ _ _ _ h
  rw [himg] at himg2
  injection himg2 with he
  subst he
  have hlen : picks.length = s.labels.length := by
    rw [hpicks, runPicks_length]
  have hjn : j < s.labels.length := by omega
  have htake : picks.take j = runPicks
      (diffOf (buildProfile img (round probe.pixelX) startY segH
        (max 0 (round (probe.bandPx.getD s.bandPx))).toNat))
      segH s.labels.length
      (fun i => labelValidRowsFor s.highlightEnabled s.mask img.width
        (round probe.pixelX) (max 0 (round (probe.bandPx.getD s.bandPx))).toNat
        startY segH (s.labelRgb (s.labels.getD i "")))
      (thresholdOf
        (diffOf (buildProfile img (round probe.pixelX) startY segH
          (max 0 (round (probe.bandPx.getD s.bandPx))).toNat))
        (probe.sensitivity.getD s.sensitivity))
      j := by
    rw [hpicks]
    exact runPicks_take _ _ _ _ _ _ _ (by omega)
  have hgetj : picks.getD j 0 = pickForLabel
      (diffOf (buildProfile img (round probe.pixelX) startY segH
        (max 0 (round (probe.bandPx.getD s.bandPx))).toNat))
      segH s.labels.length
      (labelValidRowsFor s.highlightEnabled s.mask img.width
        (round probe.pixelX) (max 0 (round (probe.bandPx.getD s.bandPx))).toNat
        startY segH (s.labelRgb (s.labels.getD j "")))
      (thresholdOf
        (diffOf (buildProfile img (round probe.pixelX) startY segH
          (max 0 (round (probe.bandPx.getD s.bandPx))).toNat))
        (probe.sensitivity.getD s.sensitivity))
      (picks.take j) j := by
    rw [htake, hpicks]
    exact runPicks_getD _ _ _ _ _ _ _ hjn
  rcases pickForLabel_sep
      (diffOf (buildProfile img (round probe.pixelX) startY segH
        (max 0 (round (probe.bandPx.getD s.bandPx))).toNat))
      segH s.labels.length
      (labelValidRowsFor s.highlightEnabled s.mask img.width
        (round probe.pixelX) (max 0 (round (probe.bandPx.getD s.bandPx))).toNat
        startY segH (s.labelRgb (s.labels.getD j "")))
      (thresholdOf
        (diffOf (buildProfile img (round probe.pixelX) startY segH
          (max 0 (round (probe.bandPx.getD s.bandPx))).toNat))
        (probe.sensitivity.getD s.sensitivity))
      (picks.take j) j with hsep | hforced | hnoroom
  · left
    rw [← hgetj] at hsep
    have hmem : picks.getD i 0 ∈ picks.take j := by
      rw [htake, hpicks]
      exact runPicks_getD_mem _ _ _ _ _ _ _ _ hij (by omega)
    exact (tooClose_false_iff _ _).mp hsep _ hmem
  · right; left; exact hforced
  · right; right; exact hnoroom

/-- **C2.** For every probe, when the image is present, the state is
calibrated and the sampled vertical span is non-empty (`segH > 0`), the
completed detection run writes an `automaticY` array whose length equals
the number of labels. -/
theorem detect_length_eq_labels (img? : Option Image) (x1 x2 y1 y2 : CalPoint)
    (s : DetectSettings) (probe : Probe) (img : Image) (himg : img? = some img)
    (hc : calibrated x1 x2 y1 y2 = true)
    (hseg : 0 < (endYOf img.height (y1.pixel.getD ⟨0, 0⟩) (y2.pixel.getD ⟨0, 0⟩) -
      startYOf (y1.pixel.getD ⟨0, 0⟩) (y2.pixel.getD ⟨0, 0⟩) + 1).toNat) :
    ∃ ys, detectProbe img? x1 x2 y1 y2 s probe = some ys ∧
      ys.length = s.labels.length := by
  subst himg
  rcases hp : detectPicks (some img) x1 x2 y1 y2 s probe with _ | r
  · exfalso
    simp only [detectPicks, if_pos hc, if_pos hseg] at hp
    exact Option.noConfusion hp
  · obtain ⟨startY, segH, picks⟩ := r
    obtain ⟨img2, himg2, hc2, hs2, hsY, hsegH, hpicks⟩ :=
      detectPicks_inv _ _ _ _ _ _ _ _ _ _ hp
    injection himg2 with he
    subst he
    refine ⟨picks.map (fun (segY : ℕ) =>
      (pixelToData ⟨((round probe.pixelX : ℤ) : ℝ), ((startY + (segY : ℤ) : ℤ) : ℝ)⟩
        (calPixelsOf x1 x2 y1 y2) (calValuesOf x1 x2 y1 y2)).y), ?_, ?_⟩
    · rw [detectProbe, hp]
      rfl
    · simp only [List.length_map, hpicks, runPicks_length]

/-- **C8.** If any of the four calibration pixels or values is absent,
`pixelToData` and `dataToPixel` return the zero point (finite, without
raising) and a detection call writes no result. -/
theorem uncalibrated_safe (p d : Point) (img? : Option Image)
    (x1 x2 y1 y2 : CalPoint) (s : DetectSettings) (probe : Probe)
    (hmiss : x1.pixel = none ∨ x2.pixel = none ∨ y1.pixel = none ∨ y2.pixel = none ∨
      x1.value = none ∨ x2.value = none ∨ y1.value = none ∨ y2.value = none) :
    pixelToData p (calPixelsOf x1 x2 y1 y2) (calValuesOf x1 x2 y1 y2) = ⟨0, 0⟩ ∧
    dataToPixel d (calPixelsOf x1 x2 y1 y2) (calValuesOf x1 x2 y1 y2) = some ⟨0, 0⟩ ∧
    detectProbe img? x1 x2 y1 y2 s probe = none := by
  have hcal : calibrated x1 x2 y1 y2 = false := by
    rcases hmiss with h | h | h | h | h | h | h | h
    all_goals simp [calibrated, h]
  have hdetect : detectProbe img? x1 x2 y1 y2 s probe = none := by
    rcases img? with _ | img
    · rfl
    · simp [detectProbe, detectPicks, hcal]
  refine ⟨?_, ?_, hdetect⟩
  all_goals rcases hmiss with h | h | h | h | h | h | h | h
  all_goals simp [pixelToData, dataToPixel, calPixelsOf, calValuesOf, h]

/-! ## The detection threshold -/

theorem le_foldl_max (l : List ℚ) (b : ℚ) : b ≤ l.foldl max b := by
  induction l generalizing b with
  | nil => exact le_refl b
  | cons x xs ih => exact le_trans (le_max_left b x) (ih (max b x))

theorem mem_le_foldl_max (l : List ℚ) (b x : ℚ) (hx : x ∈ l) : x ≤ l.foldl max b := by
  induction l generalizing b with
  | nil => simp at hx
  | cons z zs ih =>
    rcases List.mem_cons.mp hx with h | h
    · subst h
      exact le_trans (le_max_right b x) (le_foldl_max zs (max b x))
    · exact ih (max b z) h

theorem le_maxDiffOf (l : List ℚ) (x : ℚ) (hx : x ∈ l) : x ≤ maxDiffOf l := by
  match l with
  | [] => simp at hx
  | h :: t =>
    rcases List.mem_cons.mp hx with he | he
    · subst he
      exact le_foldl_max t x
    · exact mem_le_foldl_max t h x he

theorem diffOf_nonneg (profile : List ℚ) (x : ℚ) (hx : x ∈ diffOf profile) : 0 ≤ x := by
  simp only [diffOf, List.mem_map] at hx
  obtain ⟨y, _, hy⟩ := hx
  rw [← hy]
  exact abs_nonneg _

theorem maxDiffOf_nonneg (l : List ℚ) (hl : ∀ x ∈ l, 0 ≤ x) : 0 ≤ maxDiffOf l := by
  match l with
  | [] => exact le_refl 0
  | h :: t =>
    exact le_trans (hl h (List.mem_cons_self _ _)) (le_foldl_max t h)

/-- **C6.** The detection threshold is
`maxDiff * (0.15 + 0.7 * (1 - sensitivity))`, where `maxDiff` is the
maximum of the derivative signal (`0` for an empty signal, and an upper
bound of every entry); for any fixed derivative signal obtained from a
brightness profile, the threshold is non-increasing in the sensitivity. -/
theorem threshold_formula_antitone (profile : List ℚ) (s1 s2 : ℚ) (h12 : s1 ≤ s2) :
    thresholdOf (diffOf profile) s1 =
      maxDiffOf (diffOf profile) * (0.15 + 0.7 * (1 - s1)) ∧
    maxDiffOf [] = 0 ∧
    (∀ d ∈ diffOf profile, d ≤ maxDiffOf (diffOf profile)) ∧
    thresholdOf (diffOf profile) s2 ≤ thresholdOf (diffOf profile) s1 := by
  refine ⟨rfl, rfl, fun d hd => le_maxDiffOf _ _ hd, ?_⟩
  have hmax : 0 ≤ maxDiffOf (diffOf profile) :=
    maxDiffOf_nonneg _ (diffOf_nonneg profile)
  unfold thresholdOf
  have hfac : (0.15 + 0.7 * (1 - s2) : ℚ) ≤ 0.15 + 0.7 * (1 - s1) := by linarith
  exact mul_le_mul_of_nonneg_left hfac hmax

/-! ## The profile divisor -/

/-- **C4 (amended).** Each row's accumulator is divided by the full
nominal band width `2*band + 1` — not by the number of columns actually
sampled.  The two agree (and the profile value is the mean luma of the
sampled columns) exactly when the whole band `px - band .. px + band`
lies inside the image width. -/
theorem profile_divisor_full_band (img : Image) (px startY : ℤ) (segH band : ℕ)
    (hlo : 0 ≤ px - (band : ℤ)) (hhi : px + (band : ℤ) < (img.width : ℤ)) :
    buildProfile img px startY segH band = profileMeanSpec img px startY segH band := by
  unfold buildProfile profileMeanSpec
  have hfilter : (((List.range (2 * band + 1)).map
      (fun (k : ℕ) => px + (k : ℤ) - (band : ℤ))).filter
        (fun sx => decide (0 ≤ sx ∧ sx < (img.width : ℤ)))) =
      ((List.range (2 * band + 1)).map (fun (k : ℕ) => px + (k : ℤ) - (band : ℤ))) := by
    rw [List.filter_eq_self]
    intro sx hsx
    rw [List.mem_map] at hsx
    obtain ⟨k, hk, hke⟩ := hsx
    rw [List.mem_range] at hk
    rw [decide_eq_true_eq]
    omega
  rw [hfilter]
  have hlen : (((List.range (2 * band + 1)).map
      (fun (k : ℕ) => px + (k : ℤ) - (band : ℤ)))).length = 2 * band + 1 := by
    rw [List.length_map, List.length_range]
  simp only [hlen]
  push_cast
  rfl

/-! ## Mask fallback behaviour -/

/-- **C7.** When mask-constrained detection is active: a label whose
narrow-band scan has a hit keeps the narrow-band row mask; a label with no
narrow-band hit falls back to a full-image-width scan; if that also finds
nothing the label is unconstrained (`none`); an unreadable mask layer
leaves every label unconstrained; and an unconstrained label never blocks
detection — the picker still returns an in-range row. -/
theorem mask_scan_fallback (m : ℤ → ℤ → RGBA) (w : ℕ) (px : ℤ) (band : ℕ)
    (startY : ℤ) (segH : ℕ) (t : RGB) (he : Bool) (narrow full : List Bool)
    (hnarrow : narrow = (List.range segH).map
      (rowValid m t startY (max 0 (px - (band : ℤ))) (min ((w : ℤ) - 1) (px + (band : ℤ)))))
    (hfull : full = (List.range segH).map (rowValid m t startY 0 ((w : ℤ) - 1))) :
    ((0 < min ((w : ℤ) - 1) (px + (band : ℤ)) - max 0 (px - (band : ℤ)) + 1 ∧
        narrow.any id = true) →
      labelValidRowsFor true (some m) w px band startY segH t = some narrow) ∧
    (¬(0 < min ((w : ℤ) - 1) (px + (band : ℤ)) - max 0 (px - (band : ℤ)) + 1 ∧
        narrow.any id = true) → full.any id = true →
      labelValidRowsFor true (some m) w px band startY segH t = some full) ∧
    (¬(0 < min ((w : ℤ) - 1) (px + (band : ℤ)) - max 0 (px - (band : ℤ)) + 1 ∧
        narrow.any id = true) → full.any id = false →
      labelValidRowsFor true (some m) w px band startY segH t = none) ∧
    labelValidRowsFor he none w px band startY segH t = none ∧
    (∀ (diff : List ℚ) (threshold : ℚ) (picks : List ℕ) (labelIdx labelCount : ℕ),
      diff.length + 1 = segH → 0 < segH →
      pickForLabel diff segH labelCount none threshold picks labelIdx < segH) := by
  subst hnarrow hfull
  refine ⟨?_, ?_, ?_, ?_, ?_⟩
  · intro h
    simp only [labelValidRowsFor, if_true]
    rw [if_pos h]
  · intro h hful
    simp only [labelValidRowsFor, if_true]
    rw [if_neg h, if_pos hful]
  · intro h hful
    simp only [labelValidRowsFor, if_true]
    rw [if_neg h, if_neg (by simp [hful])]
  · rcases he <;> simp [labelValidRowsFor]
  · intro diff threshold picks labelIdx labelCount hdiff hseg
    exact pickForLabel_lt _ _ _ _ _ _ _ hseg hdiff

/-! ## Manual overrides and the merged view -/

theorem find?_filter_ne_append (manual : List (String × ℝ)) (lab : String) (y : ℝ) :
    ((manual.filter (fun m => m.1 ≠ lab)) ++ [(lab, y)]).find?
      (fun m => m.1 = lab) = some (lab, y) := by
  induction manual with
  | nil => simp
  | cons m ms ih =>
    by_cases hm : m.1 = lab
    · simp [List.filter_cons, hm, ih]
    · simp [List.filter_cons, hm, List.find?_cons, ih]

theorem find?_filter_ne (manual : List (String × ℝ)) (lab : String) :
    (manual.filter (fun m => m.1 ≠ lab)).find? (fun m => m.1 = lab) = none := by
  rw [List.find?_eq_none]
  intro x hx
  rw [List.mem_filter] at hx
  simpa using hx.2

/-- **C9.** A manual entry for a label wins over the automatic entry in
the merged view; setting a manual value for a label clears that label's
`automaticY` slot (leaving every other slot unchanged) and immediately
wins in the merged view; explicitly clearing the manual entry removes it
and the merged view then shows the automatic value when one exists. -/
theorem manual_override_merged (labels : List String) (lab : String) (y : ℝ)
    (p : Probe) (idx : ℕ)
    (hidx : labels.findIdx? (fun l => l = lab) = some idx) :
    (∀ v, p.manual.find? (fun m => m.1 = lab) = some v →
      mergedValue p lab idx = some v.2) ∧
    mergedValue (setManualPick labels lab y p) lab idx = some y ∧
    (∀ arr, p.automaticY = some arr → idx < arr.length →
      (setManualPick labels lab y p).automaticY = some (arr.set idx none) ∧
      ∀ k, k ≠ idx → (arr.set idx none).getD k none = arr.getD k none) ∧
    (∀ arr v, p.manual.any (fun m => m.1 = lab) = true →
      p.automaticY = some arr → arr.getD idx none = some v →
      (deleteLabelValue labels lab p).manual.find? (fun m => m.1 = lab) = none ∧
      (deleteLabelValue labels lab p).automaticY = p.automaticY ∧
      mergedValue (deleteLabelValue labels lab p) lab idx = some v) := by
  refine ⟨?_, ?_, ?_, ?_⟩
  · intro v hv
    simp only [mergedValue, hv]
  · simp only [mergedValue, setManualPick, find?_filter_ne_append]
  · intro arr harr hlen
    constructor
    · simp only [setManualPick, harr, hidx, if_pos hlen]
    · intro k hk
      rw [List.getD_eq_getElem?_getD, List.getD_eq_getElem?_getD,
        List.getElem?_set_ne (fun he => hk he.symm)]
  · intro arr v hman harr hv
    have hfind : (deleteLabelValue labels lab p).manual.find?
        (fun m => m.1 = lab) = none := by
      simp only [deleteLabelValue, if_pos hman]
      exact find?_filter_ne _ _
    have hauto : (deleteLabelValue labels lab p).automaticY = p.automaticY := by
      simp only [deleteLabelValue, if_pos hman]
    refine ⟨hfind, hauto, ?_⟩
    simp only [mergedValue, hfind, hauto, harr, hv]

/-! ## Geometry: finiteness -/

theorem len_zero : len ⟨0, 0⟩ = 0 := by
  simp [len]

theorem sub_self_eq_zero (a : Point) : sub a a = ⟨0, 0⟩ := by
  simp [sub]

theorem len_pos (a : Point) (ha : a ≠ ⟨0, 0⟩) : 0 < len a := by
  rw [len, Real.sqrt_pos]
  have h : ¬(a.x = 0 ∧ a.y = 0) := by
    rintro ⟨h1, h2⟩
    exact ha (Point.ext h1 h2)
  rcases not_and_or.mp h with h | h
  · positivity
  · positivity

theorem sq_len (a : Point) : len a ^ 2 = a.x ^ 2 + a.y ^ 2 := by
  rw [len, Real.sq_sqrt (by positivity)]

/-- **C5 (amended).** `pixelToData` always returns a pair of (finite) real
coordinates, with a zero-length axis clamped to a `0` component; and
`dataToPixel` returns a finite pair whenever both calibration-value
differences are non-zero.  (When a value difference is zero,
`dataToPixel` — which has no finiteness clamp — produces a non-finite
coordinate; see the counterexample.) -/
theorem transform_finiteness (p d : Point) (px1 px2 py1 py2 : Point)
    (vx1 vx2 vy1 vy2 : ℝ) (hvx : vx2 ≠ vx1) (hvy : vy2 ≠ vy1) :
    (dataToPixel d ⟨some px1, some px2, some py1, some py2⟩
      ⟨some vx1, some vx2, some vy1, some vy2⟩).isSome = true ∧
    (px2 = px1 →
      (pixelToData p ⟨some px1, some px2, some py1, some py2⟩
        ⟨some vx1, some vx2, some vy1, some vy2⟩).x = 0) := by
  constructor
  · simp [dataToPixel, sub_eq_zero, hvx, hvy]
  · intro he
    subst he
    have hzero : sub px2 px2 = ⟨0, 0⟩ := sub_self_eq_zero px2
    have hnorm : norm (⟨0, 0⟩ : Point) = ⟨0, 0⟩ := by
      simp [norm, len_zero]
    simp [pixelToData, hzero, hnorm, dot]

/-! ## Geometry: the round-trip -/

theorem norm_eval (a : Point) (ha : a ≠ ⟨0, 0⟩) :
    norm a = ⟨a.x / len a, a.y / len a⟩ := by
  have h := (len_pos a ha).ne'
  simp [norm, h]

/-- Resolution of a vector along two orthogonal non-zero directions:
with `ux = norm D` and `uy = norm E` orthonormal, the projections
reassemble the vector exactly. -/
theorem orth_resolution (D E v : Point) (hD : D ≠ ⟨0, 0⟩) (hE : E ≠ ⟨0, 0⟩)
    (horth : dot D E = 0) :
    add (mul (norm D) (dot v (norm D))) (mul (norm E) (dot v (norm E))) = v := by
  have hlD := (len_pos D hD).ne'
  have hlE := (len_pos E hE).ne'
  have hD2 := sq_len D
  have hE2 := sq_len E
  have hDs : D.x ^ 2 + D.y ^ 2 ≠ 0 := by rw [← hD2]; positivity
  have hEs : E.x ^ 2 + E.y ^ 2 ≠ 0 := by rw [← hE2]; positivity
  have hD2m : len D * len D = D.x ^ 2 + D.y ^ 2 := by rw [← pow_two]; exact hD2
  have hE2m : len E * len E = E.x ^ 2 + E.y ^ 2 := by rw [← pow_two]; exact hE2
  rw [norm_eval D hD, norm_eval E hE]
  simp only [dot] at horth ⊢
  apply Point.ext
  · simp only [add, mul]
    field_simp
    rw [hD2m, hE2m]
    linear_combination (v.x * (D.x * E.x - D.y * E.y) + v.y * (D.y * E.x + D.x * E.y)) * horth
  · simp only [add, mul]
    field_simp
    rw [hD2m, hE2m]
    linear_combination (v.y * (D.y * E.y - D.x * E.x) + v.x * (D.y * E.x + D.x * E.y)) * horth

theorem sub_ne_zero_pt (a b : Point) (h : a ≠ b) : sub a b ≠ ⟨0, 0⟩ := by
  intro hc
  apply h
  have hx := congrArg Point.x hc
  have hy := congrArg Point.y hc
  simp [sub] at hx hy
  exact Point.ext (by linarith) (by linarith)

/-- `alpha2 - alpha1 = len(x2 - x1)`: the difference of the two axis
projections relative to any `O` is the axis length. -/
theorem dot_diff_norm (a b O : Point) (h : a ≠ b) :
    dot (sub a O) (norm (sub a b)) - dot (sub b O) (norm (sub a b)) = len (sub a b) := by
  have hD := sub_ne_zero_pt a b h
  have hbil : ∀ u : Point, dot (sub a O) u - dot (sub b O) u = dot (sub a b) u := by
    intro u
    simp only [dot, sub]
    ring
  rw [hbil]
  have hl := (len_pos _ hD).ne'
  have h2 := sq_len (sub a b)
  rw [norm_eval _ hD]
  simp only [dot]
  field_simp
  rw [show len (sub a b) * len (sub a b) = len (sub a b) ^ 2 from (pow_two _).symm, h2]
  ring

/-- **C1 (amended).** For a complete calibration with distinct axis pixels
and distinct axis values: when the two axis directions are additionally
orthogonal, the transform round-trips exactly —
`dataToPixel (pixelToData p) = p` for every point on either calibration
line (the proof holds for every `p`), in particular exactly for the four
calibration pixels.  And for any such axes, orthogonal or skewed (no
orthogonality hypothesis), `pixelToData` of each calibration pixel yields
that pixel's declared value on its own axis. -/
theorem calibration_roundtrip (px1 px2 py1 py2 : Point) (vx1 vx2 vy1 vy2 : ℝ)
    (hxp : px2 ≠ px1) (hyp2 : py2 ≠ py1) (hvx : vx2 ≠ vx1) (hvy : vy2 ≠ vy1) :
    (dot (sub px2 px1) (sub py2 py1) = 0 →
      (∀ p : Point,
        ((∃ t, p = add px1 (mul (sub px2 px1) t)) ∨
          (∃ t, p = add py1 (mul (sub py2 py1) t))) →
        dataToPixel (pixelToData p ⟨some px1, some px2, some py1, some py2⟩
            ⟨some vx1, some vx2, some vy1, some vy2⟩)
          ⟨some px1, some px2, some py1, some py2⟩
          ⟨some vx1, some vx2, some vy1, some vy2⟩ = some p) ∧
      (∀ q ∈ [px1, px2, py1, py2],
        dataToPixel (pixelToData q ⟨some px1, some px2, some py1, some py2⟩
            ⟨some vx1, some vx2, some vy1, some vy2⟩)
          ⟨some px1, some px2, some py1, some py2⟩
          ⟨some vx1, some vx2, some vy1, some vy2⟩ = some q)) ∧
    (pixelToData px1 ⟨some px1, some px2, some py1, some py2⟩
      ⟨some vx1, some vx2, some vy1, some vy2⟩).x = vx1 ∧
    (pixelToData px2 ⟨some px1, some px2, some py1, some py2⟩
      ⟨some vx1, some vx2, some vy1, some vy2⟩).x = vx2 ∧
    (pixelToData py1 ⟨some px1, some px2, some py1, some py2⟩
      ⟨some vx1, some vx2, some vy1, some vy2⟩).y = vy1 ∧
    (pixelToData py2 ⟨some px1, some px2, some py1, some py2⟩
      ⟨some vx1, some vx2, some vy1, some vy2⟩).y = vy2 := by
  have hD := sub_ne_zero_pt px2 px1 hxp
  have hE := sub_ne_zero_pt py2 py1 hyp2
  have hlD := (len_pos _ hD).ne'
  have hlE := (len_pos _ hE).ne'
  have hroundtrip : dot (sub px2 px1) (sub py2 py1) = 0 → ∀ p : Point,
      dataToPixel (pixelToData p ⟨some px1, some px2, some py1, some py2⟩
          ⟨some vx1, some vx2, some vy1, some vy2⟩)
        ⟨some px1, some px2, some py1, some py2⟩
        ⟨some vx1, some vx2, some vy1, some vy2⟩ = some p := by
    intro horth p
    simp only [pixelToData, dataToPixel, Option.isNone_some, Bool.or_self,
      Bool.false_eq_true, if_false, Option.getD_some]
    set O := (lineIntersection px1 px2 py1 py2).getD px1 with hO
    rw [show dot (sub px2 O) (norm (sub px2 px1)) - dot (sub px1 O) (norm (sub px2 px1)) =
      len (sub px2 px1) from dot_diff_norm px2 px1 O hxp]
    rw [show dot (sub py2 O) (norm (sub py2 py1)) - dot (sub py1 O) (norm (sub py2 py1)) =
      len (sub py2 py1) from dot_diff_norm py2 py1 O hyp2]
    rw [if_neg hlD, if_neg hlE]
    rw [if_neg (by simp [sub_eq_zero, hvx, hvy])]
    have hsimp : ∀ (a1 q l v1 v2 : ℝ), l ≠ 0 → v2 - v1 ≠ 0 →
        a1 + (v1 + (q - a1) / l * (v2 - v1) - v1) / (v2 - v1) * l = q := by
      intro a1 q l v1 v2 hl hv
      field_simp
      ring
    rw [hsimp (dot (sub px1 O) (norm (sub px2 px1))) (dot (sub p O) (norm (sub px2 px1)))
      (len (sub px2 px1)) vx1 vx2 hlD (sub_ne_zero.mpr hvx)]
    rw [hsimp (dot (sub py1 O) (norm (sub py2 py1))) (dot (sub p O) (norm (sub py2 py1)))
      (len (sub py2 py1)) vy1 vy2 hlE (sub_ne_zero.mpr hvy)]
    have hres := orth_resolution (sub px2 px1) (sub py2 py1) (sub p O) hD hE horth
    have hrx := congrArg Point.x hres
    have hry := congrArg Point.y hres
    rw [show (sub p O).x = p.x - O.x from rfl] at hrx
    rw [show (sub p O).y = p.y - O.y from rfl] at hry
    simp only [add] at hrx hry
    refine congrArg some ?_
    apply Point.ext
    · simp only [add]
      linarith [hrx]
    · simp only [add]
      linarith [hry]
  refine ⟨fun horth => ⟨fun p _ => hroundtrip horth p, by simp [hroundtrip horth]⟩,
    ?_, ?_, ?_, ?_⟩
  all_goals
    simp only [pixelToData, Option.isNone_some, Bool.or_self,
      Bool.false_eq_true, if_false, Option.getD_some]
  all_goals
    set O := (lineIntersection px1 px2 py1 py2).getD px1 with hO
  · rw [show dot (sub px2 O) (norm (sub px2 px1)) - dot (sub px1 O) (norm (sub px2 px1)) =
      len (sub px2 px1) from dot_diff_norm px2 px1 O hxp, if_neg hlD]
    simp
  · rw [show dot (sub px2 O) (norm (sub px2 px1)) - dot (sub px1 O) (norm (sub px2 px1)) =
      len (sub px2 px1) from dot_diff_norm px2 px1 O hxp, if_neg hlD]
    field_simp
  · rw [show dot (sub py2 O) (norm (sub py2 py1)) - dot (sub py1 O) (norm (sub py2 py1)) =
      len (sub py2 py1) from dot_diff_norm py2 py1 O hyp2, if_neg hlE]
    simp
  · rw [show dot (sub py2 O) (norm (sub py2 py1)) - dot (sub py1 O) (norm (sub py2 py1)) =
      len (sub py2 py1) from dot_diff_norm py2 py1 O hyp2, if_neg hlE]
    field_simp

/-! ## Concrete evaluations -/

/-- A complete detection run on a 5x12 image with two dimmer bands
(rows 3-5 and 8-10), two labels, no mask, band 0, sensitivity 1: the
picker chooses rows 2 and 5 (the two strongest separated edges). -/
theorem detectPicks_eval_s1 :
    detectPicks (some ⟨5, 12, fun _ y =>
        if (3 ≤ y ∧ y ≤ 5) ∨ (8 ≤ y ∧ y ≤ 10) then ⟨235, 235, 235⟩ else ⟨255, 255, 255⟩⟩)
      ⟨some ⟨0, 11⟩, some 0⟩ ⟨some ⟨4, 11⟩, some 1⟩ ⟨some ⟨0, 0⟩, some 0⟩
      ⟨some ⟨0, 11⟩, some 1⟩ ⟨["a", "b"], fun _ => ⟨255, 255, 0⟩, 1, 0, false, none⟩
      ⟨"p", 0, 2, none, [], none, none⟩ = some (0, 12, [2, 5]) := by
  have hprof : buildProfile ⟨5, 12, fun _ y =>
      if (3 ≤ y ∧ y ≤ 5) ∨ (8 ≤ y ∧ y ≤ 10) then ⟨235, 235, 235⟩ else ⟨255, 255, 255⟩⟩
      2 0 12 0 = [255, 255, 255, 235, 235, 235, 255, 255, 235, 235, 235, 255] := by
    norm_num [buildProfile, lumaOf, List.range_succ]
  have hdiff : diffOf [255, 255, 255, 235, 235, 235, 255, 255, 235, 235, 235, 255]
      = [0, 0, 20, 0, 0, 20, 0, 20, 0, 0, 20] := by
    norm_num [diffOf, List.range_succ]
  have hthr : thresholdOf [0, 0, 20, 0, 0, 20, 0, 20, 0, 0, 20] (1 : ℚ) = 3 := by
    norm_num [thresholdOf, maxDiffOf, List.foldl]
  norm_num [detectPicks, calibrated, startYOf, endYOf]
  simp only [(by decide : Int.toNat 12 = 12)]
  rw [hprof, hdiff, hthr]
  decide

/-! ## Counterexamples and witnesses -/

/-- **C1, counterexample.** With skewed (non-orthogonal) axes —
x-axis along `(3,4)`, y-axis along `(0,5)`, intersecting at the origin —
the round-trip of the calibration pixel `x2 = (3,4)` is not exact: it
returns `(3,8)`.  All四 calibration entries are present and the axes are
not parallel, so the claim's hypotheses hold, yet the round-trip moves a
calibration pixel by four pixels. -/
theorem calibration_roundtrip_cex :
    dataToPixel (pixelToData ⟨3, 4⟩ ⟨some ⟨0, 0⟩, some ⟨3, 4⟩, some ⟨0, 0⟩, some ⟨0, 5⟩⟩
        ⟨some 0, some 1, some 0, some 1⟩)
      ⟨some ⟨0, 0⟩, some ⟨3, 4⟩, some ⟨0, 0⟩, some ⟨0, 5⟩⟩
      ⟨some 0, some 1, some 0, some 1⟩ = some ⟨3, 8⟩ ∧
    (⟨3, 8⟩ : Point) ≠ ⟨3, 4⟩ := by
  constructor
  · have h25 : Real.sqrt 25 = 5 := by
      rw [show (25 : ℝ) = 5 ^ 2 by norm_num]
      exact Real.sqrt_sq (by norm_num)
    have hsx : sub (⟨3, 4⟩ : Point) ⟨0, 0⟩ = ⟨3, 4⟩ := by simp [sub]
    have hsy : sub (⟨0, 5⟩ : Point) ⟨0, 0⟩ = ⟨0, 5⟩ := by simp [sub]
    have hlD : len ⟨3, 4⟩ = 5 := by
      rw [len]
      norm_num [h25]
    have hlE : len ⟨0, 5⟩ = 5 := by
      rw [len]
      norm_num [h25]
    have hux : norm (⟨3, 4⟩ : Point) = ⟨3 / 5, 4 / 5⟩ := by
      rw [norm_eval _ (by simp [Point.ext_iff]), hlD]
    have huy : norm (⟨0, 5⟩ : Point) = ⟨0, 1⟩ := by
      rw [norm_eval _ (by simp [Point.ext_iff]), hlE]
      norm_num
    have hO : lineIntersection ⟨0, 0⟩ ⟨3, 4⟩ ⟨0, 0⟩ ⟨0, 5⟩ = some ⟨0, 0⟩ := by
      rw [lineIntersection]
      rw [if_neg (by norm_num)]
      norm_num [Point.ext_iff]
    simp only [pixelToData, dataToPixel, Option.isNone_some, Bool.or_self,
      Bool.false_eq_true, if_false, Option.getD_some, hO, hsx, hsy, hux, huy]
    norm_num [dot, sub, add, mul, Point.ext_iff]
  · simp [Point.ext_iff]

/-- **C1, witness.** The amended theorem applied twice: the round-trip
part at an orthogonal calibration (horizontal x-axis, vertical y-axis),
at the point `(4,0)` of the x-axis line; and the declared-value part at
the skewed calibration of the counterexample (axes along `(3,4)` and
`(0,5)`), where `pixelToData` of the calibration pixel `x2 = (3,4)`
still yields its declared value `1`. -/
theorem calibration_roundtrip_witness :
    ((⟨10, 0⟩ : Point) ≠ ⟨0, 0⟩) ∧ ((⟨0, 10⟩ : Point) ≠ ⟨0, 0⟩) ∧
    ((30 : ℝ) ≠ 0) ∧ ((50 : ℝ) ≠ 0) ∧
    dot (sub ⟨10, 0⟩ ⟨0, 0⟩) (sub ⟨0, 10⟩ ⟨0, 0⟩) = 0 ∧
    dataToPixel (pixelToData ⟨4, 0⟩ ⟨some ⟨0, 0⟩, some ⟨10, 0⟩, some ⟨0, 0⟩, some ⟨0, 10⟩⟩
        ⟨some 0, some 30, some 0, some 50⟩)
      ⟨some ⟨0, 0⟩, some ⟨10, 0⟩, some ⟨0, 0⟩, some ⟨0, 10⟩⟩
      ⟨some 0, some 30, some 0, some 50⟩ = some ⟨4, 0⟩ ∧
    (pixelToData ⟨3, 4⟩ ⟨some ⟨0, 0⟩, some ⟨3, 4⟩, some ⟨0, 0⟩, some ⟨0, 5⟩⟩
      ⟨some 0, some 1, some 0, some 1⟩).x = 1 := by
  refine ⟨by simp [Point.ext_iff], by simp [Point.ext_iff], by norm_num, by norm_num,
    by norm_num [dot, sub], ?_, ?_⟩
  · exact ((calibration_roundtrip ⟨0, 0⟩ ⟨10, 0⟩ ⟨0, 0⟩ ⟨0, 10⟩ 0 30 0 50
      (by simp [Point.ext_iff]) (by simp [Point.ext_iff]) (by norm_num) (by norm_num)).1
      (by norm_num [dot, sub])).1 ⟨4, 0⟩
      (Or.inl ⟨2 / 5, by simp [add, mul, sub, Point.ext_iff]; norm_num⟩)
  · exact (calibration_roundtrip ⟨0, 0⟩ ⟨3, 4⟩ ⟨0, 0⟩ ⟨0, 5⟩ 0 1 0 1
      (by simp [Point.ext_iff]) (by simp [Point.ext_iff]) (by norm_num)
      (by norm_num)).2.2.1

/-- **C2, witness.** The detection-length theorem applied to the concrete
5x12 run: two labels, result of length two. -/
theorem detect_length_eq_labels_witness :
    calibrated ⟨some ⟨0, 11⟩, some 0⟩ ⟨some ⟨4, 11⟩, some 1⟩ ⟨some ⟨0, 0⟩, some 0⟩
      ⟨some ⟨0, 11⟩, some 1⟩ = true ∧
    0 < (endYOf 12 ⟨0, 0⟩ ⟨0, 11⟩ - startYOf ⟨0, 0⟩ ⟨0, 11⟩ + 1).toNat ∧
    ∃ ys, detectProbe (some ⟨5, 12, fun _ y =>
        if (3 ≤ y ∧ y ≤ 5) ∨ (8 ≤ y ∧ y ≤ 10) then ⟨235, 235, 235⟩ else ⟨255, 255, 255⟩⟩)
      ⟨some ⟨0, 11⟩, some 0⟩ ⟨some ⟨4, 11⟩, some 1⟩ ⟨some ⟨0, 0⟩, some 0⟩
      ⟨some ⟨0, 11⟩, some 1⟩ ⟨["a", "b"], fun _ => ⟨255, 255, 0⟩, 1, 0, false, none⟩
      ⟨"p", 0, 2, none, [], none, none⟩ = some ys ∧ ys.length = 2 := by
  refine ⟨by decide, by decide, ?_⟩
  exact detect_length_eq_labels _ _ _ _ _ _ _ _ rfl (by decide) (by decide)

/-- **C10, witness.** The row-bound theorem applied to the concrete 5x12
run: the chosen row `2` lies inside the segment and the image. -/
theorem detect_rows_within_segment_witness :
    detectPicks (some ⟨5, 12, fun _ y =>
        if (3 ≤ y ∧ y ≤ 5) ∨ (8 ≤ y ∧ y ≤ 10) then ⟨235, 235, 235⟩ else ⟨255, 255, 255⟩⟩)
      ⟨some ⟨0, 11⟩, some 0⟩ ⟨some ⟨4, 11⟩, some 1⟩ ⟨some ⟨0, 0⟩, some 0⟩
      ⟨some ⟨0, 11⟩, some 1⟩ ⟨["a", "b"], fun _ => ⟨255, 255, 0⟩, 1, 0, false, none⟩
      ⟨"p", 0, 2, none, [], none, none⟩ = some (0, 12, [2, 5]) ∧
    (2 < 12 ∧ (0 : ℤ) ≤ 0 ∧ (0 : ℤ) + 2 ≤ endYOf 12 ⟨0, 0⟩ ⟨0, 11⟩ ∧
      (0 : ℤ) + 2 < 12) := by
  refine ⟨detectPicks_eval_s1, ?_⟩
  exact detect_rows_within_segment _ _ _ _ _ _ _ _ 0 12 [2, 5] rfl
    detectPicks_eval_s1 2 (by decide)

/-- **C3, counterexample.** A mask that restricts both labels to the same
single row (row 10 of a 20-row segment) forces the picker to choose
row 10 twice: the two chosen rows are 0 apart although the segment
(20 rows) is amply large for `2 labels x 3 rows` of separation — the
claim's only stated exception. -/
theorem detect_min_separation_cex :
    detectPicks (some ⟨30, 30, fun _ _ => ⟨255, 255, 255⟩⟩)
      ⟨some ⟨0, 25⟩, some 0⟩ ⟨some ⟨29, 25⟩, some 1⟩ ⟨some ⟨2, 0⟩, some 0⟩
      ⟨some ⟨2, 19⟩, some 1⟩
      ⟨["A", "B"], fun _ => ⟨255, 255, 0⟩, 1 / 2, 1, true,
        some (fun _ y => if y = 10 then ⟨255, 255, 0, 255⟩ else ⟨0, 0, 0, 0⟩)⟩
      ⟨"p", 0, 5, none, [], none, none⟩ = some (0, 20, [10, 10]) ∧
    ¬(MIN_SEP ≤ |(10 : ℤ) - 10|) ∧ 2 * 3 ≤ 20 := by
  refine ⟨?_, by decide, by decide⟩
  have hprof : buildProfile ⟨30, 30, fun _ _ => ⟨255, 255, 255⟩⟩ 5 0 20 1
      = List.replicate 20 255 := by
    norm_num [buildProfile, lumaOf, List.range_succ, List.replicate]
  have hdiff : diffOf (List.replicate 20 (255 : ℚ)) = List.replicate 19 0 := by
    norm_num [diffOf, List.range_succ, List.replicate]
  have hthr : thresholdOf (List.replicate 19 0) (1 / 2) = 0 := by
    norm_num [thresholdOf, maxDiffOf, List.replicate, List.foldl]
  have hvalid : labelValidRowsFor true
      (some (fun _ y => if y = 10 then ⟨255, 255, 0, 255⟩ else ⟨0, 0, 0, 0⟩))
      30 5 1 0 20 ⟨255, 255, 0⟩ =
      some ((List.range 20).map (fun y => decide (y = 10))) := by
    norm_num [labelValidRowsFor, rowValid, maskMatches, List.range_succ, List.map]
    decide
  norm_num [detectPicks, calibrated, startYOf, endYOf]
  simp only [(by decide : Int.toNat 20 = 20)]
  rw [hprof, hdiff, hthr]
  simp only [hvalid]
  decide

/-- **C3, witness.** The amended separation theorem applied to the
concrete 5x12 run: the two chosen rows 2 and 5 are exactly
`MIN_SEP = 3` apart (the first disjunct). -/
theorem detect_min_separation_witness :
    detectPicks (some ⟨5, 12, fun _ y =>
        if (3 ≤ y ∧ y ≤ 5) ∨ (8 ≤ y ∧ y ≤ 10) then ⟨235, 235, 235⟩ else ⟨255, 255, 255⟩⟩)
      ⟨some ⟨0, 11⟩, some 0⟩ ⟨some ⟨4, 11⟩, some 1⟩ ⟨some ⟨0, 0⟩, some 0⟩
      ⟨some ⟨0, 11⟩, some 1⟩ ⟨["a", "b"], fun _ => ⟨255, 255, 0⟩, 1, 0, false, none⟩
      ⟨"p", 0, 2, none, [], none, none⟩ = some (0, 12, [2, 5]) ∧
    (MIN_SEP ≤ |(([2, 5] : List ℕ).getD 0 0 : ℤ) - (([2, 5] : List ℕ).getD 1 0 : ℤ)| ∨
    (∃ v, labelValidRowsFor false none 5 (round ((2 : ℚ)))
        (max 0 (round ((0 : ℚ)))).toNat 0 12
        ((fun (_ : String) => (⟨255, 255, 0⟩ : RGB)) ((["a", "b"]).getD 1 "")) = some v ∧
      v.any id = true ∧
      ∀ y < 12, v.getD y false = true → tooClose (([2, 5] : List ℕ).take 1) y = true) ∨
    (∀ y < 12, tooClose (([2, 5] : List ℕ).take 1) y = true)) := by
  refine ⟨detectPicks_eval_s1, ?_⟩
  exact detect_min_separation _ _ _ _ _ _ _ _ 0 12 [2, 5] rfl detectPicks_eval_s1
    0 1 (by decide) (by decide)

/-- **C4, counterexample.** For a probe at the left image edge
(`px = 0`, `band = 1`, width 5) over an all-white image, only two of the
three band columns are sampled, yet the accumulator is divided by three:
the profile value is `170`, not the mean luma `255` of the sampled
columns. -/
theorem profile_divisor_cex :
    buildProfile ⟨5, 5, fun _ _ => ⟨255, 255, 255⟩⟩ 0 0 1 1 = [170] ∧
    profileMeanSpec ⟨5, 5, fun _ _ => ⟨255, 255, 255⟩⟩ 0 0 1 1 = [255] ∧
    (170 : ℚ) ≠ 255 := by
  refine ⟨?_, ?_, by norm_num⟩
  · norm_num [buildProfile, lumaOf, List.range_succ]
  · norm_num [profileMeanSpec, lumaOf, List.range_succ]

/-- **C4, witness.** The amended divisor theorem applied to an interior
probe (`px = 2`, `band = 1`, width 5), where the code's profile and the
mean-of-sampled-columns profile agree. -/
theorem profile_divisor_witness :
    ((0 : ℤ) ≤ 2 - (1 : ℕ)) ∧ ((2 : ℤ) + (1 : ℕ) < (5 : ℕ)) ∧
    buildProfile ⟨5, 5, fun _ _ => ⟨255, 255, 255⟩⟩ 2 0 1 1 =
      profileMeanSpec ⟨5, 5, fun _ _ => ⟨255, 255, 255⟩⟩ 2 0 1 1 :=
  ⟨by decide, by decide,
    profile_divisor_full_band ⟨5, 5, fun _ _ => ⟨255, 255, 255⟩⟩ 2 0 1 1
      (by decide) (by decide)⟩

/-- **C5, counterexample.** With all calibration entries present but equal
x-values (`x1.value = x2.value = 0`), `dataToPixel` divides by zero and
returns a non-finite coordinate (modelled `none`) instead of the claimed
finite value with `0` for the affected component. -/
theorem dataToPixel_nonfinite_cex :
    dataToPixel ⟨1, 0⟩ ⟨some ⟨0, 0⟩, some ⟨10, 0⟩, some ⟨0, 0⟩, some ⟨0, 10⟩⟩
      ⟨some 0, some 0, some 0, some 1⟩ = none := by
  simp [dataToPixel]

/-- **C5, witness.** The amended finiteness theorem applied to a concrete
calibration with distinct values. -/
theorem transform_finiteness_witness :
    ((30 : ℝ) ≠ 0) ∧ ((50 : ℝ) ≠ 0) ∧
    (dataToPixel ⟨1, 2⟩ ⟨some ⟨0, 0⟩, some ⟨10, 0⟩, some ⟨0, 0⟩, some ⟨0, 10⟩⟩
      ⟨some 0, some 30, some 0, some 50⟩).isSome = true := by
  refine ⟨by norm_num, by norm_num, ?_⟩
  exact (transform_finiteness ⟨3, 4⟩ ⟨1, 2⟩ ⟨0, 0⟩ ⟨10, 0⟩ ⟨0, 0⟩ ⟨0, 10⟩ 0 30 0 50
    (by norm_num) (by norm_num)).1

/-- **C6, witness.** The threshold theorem applied to the signal of the
profile `[0, 255]` and sensitivities `1/4 ≤ 1/2`. -/
theorem threshold_formula_antitone_witness :
    ((1 : ℚ) / 4 ≤ 1 / 2) ∧
    thresholdOf (diffOf [0, 255]) (1 / 2) ≤ thresholdOf (diffOf [0, 255]) (1 / 4) :=
  ⟨by norm_num, (threshold_formula_antitone [0, 255] (1 / 4) (1 / 2) (by norm_num)).2.2.2⟩

/-- **C7, witness.** The mask-fallback theorem applied to a mask whose
only painted pixel (at `x = 3`) lies outside the narrow band of a probe
at `px = 0` with `band = 0`: the narrow scan finds nothing, the
full-width fallback restricts the label to row 0. -/
theorem mask_scan_fallback_witness :
    ([false, false] : List Bool) = (List.range 2).map
      (rowValid (fun x y => if x = 3 ∧ y = 0 then ⟨255, 255, 0, 255⟩ else ⟨0, 0, 0, 0⟩)
        ⟨255, 255, 0⟩ 0 (max 0 ((0 : ℤ) - (0 : ℕ))) (min ((5 : ℤ) - 1) ((0 : ℤ) + (0 : ℕ)))) ∧
    ([true, false] : List Bool) = (List.range 2).map
      (rowValid (fun x y => if x = 3 ∧ y = 0 then ⟨255, 255, 0, 255⟩ else ⟨0, 0, 0, 0⟩)
        ⟨255, 255, 0⟩ 0 0 ((5 : ℤ) - 1)) ∧
    labelValidRowsFor true
      (some (fun x y => if x = 3 ∧ y = 0 then ⟨255, 255, 0, 255⟩ else ⟨0, 0, 0, 0⟩))
      5 0 0 0 2 ⟨255, 255, 0⟩ = some [true, false] := by
  refine ⟨by decide, by decide, ?_⟩
  exact (mask_scan_fallback
    (fun x y => if x = 3 ∧ y = 0 then ⟨255, 255, 0, 255⟩ else ⟨0, 0, 0, 0⟩)
    5 0 0 0 2 ⟨255, 255, 0⟩ true [false, false] [true, false]
    (by decide) (by decide)).2.1 (by decide) (by decide)

/-- **C8, witness.** The uncalibrated-safety theorem applied to a state
whose `x1` pixel is absent. -/
theorem uncalibrated_safe_witness :
    ((⟨none, some 0⟩ : CalPoint).pixel = none) ∧
    pixelToData ⟨1, 1⟩
      (calPixelsOf ⟨none, some 0⟩ ⟨some ⟨4, 0⟩, some 1⟩ ⟨some ⟨0, 0⟩, some 0⟩
        ⟨some ⟨0, 4⟩, some 1⟩)
      (calValuesOf ⟨none, some 0⟩ ⟨some ⟨4, 0⟩, some 1⟩ ⟨some ⟨0, 0⟩, some 0⟩
        ⟨some ⟨0, 4⟩, some 1⟩) = ⟨0, 0⟩ ∧
    dataToPixel ⟨1, 1⟩
      (calPixelsOf ⟨none, some 0⟩ ⟨some ⟨4, 0⟩, some 1⟩ ⟨some ⟨0, 0⟩, some 0⟩
        ⟨some ⟨0, 4⟩, some 1⟩)
      (calValuesOf ⟨none, some 0⟩ ⟨some ⟨4, 0⟩, some 1⟩ ⟨some ⟨0, 0⟩, some 0⟩
        ⟨some ⟨0, 4⟩, some 1⟩) = some ⟨0, 0⟩ ∧
    detectProbe none ⟨none, some 0⟩ ⟨some ⟨4, 0⟩, some 1⟩ ⟨some ⟨0, 0⟩, some 0⟩
      ⟨some ⟨0, 4⟩, some 1⟩ ⟨[], fun _ => ⟨0, 0, 0⟩, 0, 0, false, none⟩
      ⟨"p", 0, 0, none, [], none, none⟩ = none := by
  have T := uncalibrated_safe ⟨1, 1⟩ ⟨1, 1⟩ none ⟨none, some 0⟩
    ⟨some ⟨4, 0⟩, some 1⟩ ⟨some ⟨0, 0⟩, some 0⟩ ⟨some ⟨0, 4⟩, some 1⟩
    ⟨[], fun _ => ⟨0, 0, 0⟩, 0, 0, false, none⟩
    ⟨"p", 0, 0, none, [], none, none⟩ (Or.inl rfl)
  exact ⟨rfl, T.1, T.2.1, T.2.2⟩

/-- **C9, witness.** The manual-override theorem applied to a concrete
probe with `automaticY = [some 1, some 2]`, an existing manual entry
`("b", 7)`, and a new manual pick of `5` for label `"b"` (index 1). -/
theorem manual_override_merged_witness :
    (["a", "b"].findIdx? (fun l => l = "b") = some 1) ∧
    mergedValue (⟨"p", 0, 0, some [some 1, some 2], [("b", 7)], none, none⟩ : Probe)
      "b" 1 = some 7 ∧
    mergedValue (setManualPick ["a", "b"] "b" 5
      ⟨"p", 0, 0, some [some 1, some 2], [("b", 7)], none, none⟩) "b" 1 = some 5 ∧
    (setManualPick ["a", "b"] "b" 5
      ⟨"p", 0, 0, some [some 1, some 2], [("b", 7)], none, none⟩).automaticY =
      some [some 1, none] ∧
    mergedValue (deleteLabelValue ["a", "b"] "b"
      ⟨"p", 0, 0, some [some 1, some 2], [("b", 7)], none, none⟩) "b" 1 = some 2 := by
  have T := manual_override_merged ["a", "b"] "b" 5
    ⟨"p", 0, 0, some [some 1, some 2], [("b", 7)], none, none⟩ 1 (by decide)
  refine ⟨by decide, T.1 ("b", 7) rfl, T.2.1, ?_, ?_⟩
  · exact (T.2.2.1 [some 1, some 2] rfl (by decide)).1
  · exact (T.2.2.2 [some 1, some 2] 2 rfl rfl rfl).2.2

end CurveQuant
